import Mathlib

/-!
Verification of the managed-memory runtime's container semantics
(strings, lists, dicts), the root-stack discipline, the allocator's
initialization precondition, and the pyos user-name lookup.

Strings are modelled as lists of characters (bytes); `Str` length is the
list length, so embedded zero bytes are counted.
-/

abbrev Str := List Char

/-- ASCII whitespace, as recognized by the C `isspace` used for strip and
for skipping whitespace around integer literals. -/
def isSpaceChar (c : Char) : Bool :=
  c = ' ' || c = '\t' || c = '\n' || c = '\x0b' || c = '\x0c' || c = '\r'

/-- Numeric value of a digit character, over the full alphanumeric range;
whether it is legal is decided against the base at use sites. -/
def digitVal (c : Char) : Option Nat :=
  if '0' ≤ c ∧ c ≤ '9' then some (c.toNat - '0'.toNat)
  else if 'a' ≤ c ∧ c ≤ 'z' then some (c.toNat - 'a'.toNat + 10)
  else if 'A' ≤ c ∧ c ≤ 'Z' then some (c.toNat - 'A'.toNat + 10)
  else none

/-- Longest leading run of digits valid in `base`, together with the rest
of the input. -/
def takeDigits (base : Nat) : Str → Str × Str
  | [] => ([], [])
  | c :: rest =>
    match digitVal c with
    | some d =>
      if d < base then
        let p := takeDigits base rest
        (c :: p.1, p.2)
      else ([], c :: rest)
    | none => ([], c :: rest)

/-- Value denoted by a digit run in `base`. -/
def digitsVal (base : Nat) (ds : Str) : Nat :=
  ds.foldl (fun acc c => acc * base + (digitVal c).getD 0) 0

/-- Modelled from the spec: `_str_to_int` (the body lives in mylib, which
is not under src/; only its tests are). Accepts optional leading
whitespace, an optional leading `-`, a `0x` prefix when the base is 16,
an unbroken non-empty run of digits valid in the base, and optional
trailing whitespace; any other trailing content, an empty digit run, or a
magnitude overflowing the 32-bit `int` target width is a parse failure
(`none`). -/
def _str_to_int (s : Str) (base : Nat) : Option Int :=
  let s1 := s.dropWhile isSpaceChar
  let p : Bool × Str :=
    match s1 with
    | '-' :: rest => (true, rest)
    | _ => (false, s1)
  let s3 : Str :=
    if base = 16 then
      match p.2 with
      | '0' :: 'x' :: rest => rest
      | other => other
    else p.2
  let q := takeDigits base s3
  if q.1 = [] then none
  else if ¬(q.2.dropWhile isSpaceChar = []) then none
  else
    let m : Int := (digitsVal base q.1 : Int)
    let v : Int := if p.1 then -m else m
    if -(2 ^ 31) ≤ v ∧ v ≤ 2 ^ 31 - 1 then some v else none

/-- Modelled from the spec: `to_int` with explicit base — same parse as
`_str_to_int`; a parse failure is a raised ValueError, modelled as
`none`. -/
def to_int (s : Str) (base : Nat := 10) : Option Int :=
  _str_to_int s base

/-- Whether `sep` occurs at the front of `s` (byte-exact). -/
def startsWithL : Str → Str → Bool
  | _, [] => true
  | [], _ :: _ => false
  | c :: cs, d :: ds => c = d && startsWithL cs ds

/-- Index of the first (leftmost) occurrence of `sep` in `s`, if any. -/
def findSub : Str → Str → Option Nat
  | s, sep =>
    match s with
    | [] => if startsWithL [] sep then some 0 else none
    | _ :: rest =>
      if startsWithL s sep then some 0
      else
        match findSub rest sep with
        | some i => some (i + 1)
        | none => none

/-- Modelled from the spec: `Str::split` (body in mylib, not under src/).
Scans left to right; each occurrence of the (non-empty) separator ends
the current piece, so separators at the start, end, or adjacent produce
empty pieces.  `cur` is the current piece, accumulated reversed. -/
def splitAux (sep : Str) (cur : List Char) (s : Str) : List Str :=
  match s with
  | [] => [cur.reverse]
  | c :: rest =>
    if h : 0 < sep.length ∧ startsWithL (c :: rest) sep then
      cur.reverse :: splitAux sep [] ((c :: rest).drop sep.length)
    else
      splitAux sep (c :: cur) rest
termination_by s.length
decreasing_by
  · simp only [List.length_drop, List.length_cons]
    omega
  · simp

/-- Modelled from the spec: `Str::split(sep)` returns the list of pieces
between non-overlapping left-to-right occurrences of `sep`. -/
def split (s sep : Str) : List Str :=
  splitAux sep [] s

/-- Number of non-overlapping occurrences of `sep` in `s`, counted left
to right (the count `split` is measured against). -/
def countOcc (sep : Str) (s : Str) : Nat :=
  match s with
  | [] => 0
  | c :: rest =>
    if h : 0 < sep.length ∧ startsWithL (c :: rest) sep then
      countOcc sep ((c :: rest).drop sep.length) + 1
    else
      countOcc sep rest
termination_by s.length
decreasing_by
  · simp only [List.length_drop, List.length_cons]
    omega
  · simp

/-- Modelled from the spec: `mylib::split_once(s, sep)` splits at the
first occurrence of `sep`; when `sep` is absent the second component is
an absence marker (a null `Str*`), modelled as `none`. -/
def split_once (s sep : Str) : Str × Option Str :=
  match findSub s sep with
  | some i => (s.take i, some (s.drop (i + sep.length)))
  | none => (s, none)

/-- Modelled from the spec: `Str::lstrip` removes leading ASCII
whitespace. -/
def lstrip (s : Str) : Str :=
  s.dropWhile isSpaceChar

/-- Modelled from the spec: `Str::rstrip` removes trailing ASCII
whitespace. -/
def rstrip (s : Str) : Str :=
  (s.reverse.dropWhile isSpaceChar).reverse

/-- Modelled from the spec: `Str::strip` removes leading and trailing
ASCII whitespace. -/
def strip (s : Str) : Str :=
  lstrip (rstrip s)

/-- Modelled from the spec: `str_contains` — byte-exact substring test
over the full (authoritative) length, embedded zero bytes included. -/
def str_contains (haystack needle : Str) : Bool :=
  (findSub haystack needle).isSome

/-- The NUL-truncation a C-string function applies to `Str` data: only
the bytes before the first embedded zero byte are visible to it. -/
def cstrTrunc (s : Str) : Str :=
  s.takeWhile (fun c => c ≠ '\x00')

/-- The behavior the test file documents with its `cstring-BUG` comments:
the shipped `str_contains` searches the NUL-terminated C data, so both
haystack and needle are truncated at their first embedded zero byte. -/
def str_contains_cstr (haystack needle : Str) : Bool :=
  (findSub (cstrTrunc haystack) (cstrTrunc needle)).isSome

/-- Modelled from the spec: `Str::replace(old, new)` — every
non-overlapping occurrence of `old`, scanned left to right, is replaced
by `new`; all other bytes (embedded zero bytes included) are kept. -/
def replace (s old new_ : Str) : Str :=
  List.intercalate new_ (split s old)

/-- An insertion-ordered map, modelled as its entry list in first
insertion order (the order record and the lookup structure coincide in
the model). -/
structure Dict (K V : Type) where
  entries : List (K × V)

/-- Modelled from the spec: `Dict::set` entry-list update — an existing
key's value is updated in place (its position is unchanged); a new key
is appended at the end of the order. -/
def setList {K V : Type} [DecidableEq K] (k : K) (v : V) :
    List (K × V) → List (K × V)
  | [] => [(k, v)]
  | (k0, v0) :: rest =>
    if k0 = k then (k0, v) :: rest else (k0, v0) :: setList k v rest

/-- Modelled from the spec: `Dict::get` lookup — `none` is the sentinel
for an absent key, distinguishable from any stored value. -/
def getList {K V : Type} [DecidableEq K] (k : K) : List (K × V) → Option V
  | [] => none
  | (k0, v0) :: rest => if k0 = k then some v0 else getList k rest

/-- Modelled from the spec: `Dict::remove` — deletes the key's entry from
both the lookup structure and the order record. -/
def removeList {K V : Type} [DecidableEq K] (k : K) :
    List (K × V) → List (K × V)
  | [] => []
  | (k0, v0) :: rest =>
    if k0 = k then rest else (k0, v0) :: removeList k rest

namespace Dict

variable {K V : Type} [DecidableEq K]

/-- Number of entries, `len(D)`. -/
def len (d : Dict K V) : Nat :=
  d.entries.length

/-- Key snapshot in first-insertion order, `D.keys()`. -/
def keys (d : Dict K V) : List K :=
  d.entries.map Prod.fst

/-- Value snapshot in first-insertion order, `D.values()`. -/
def values (d : Dict K V) : List V :=
  d.entries.map Prod.snd

/-- Insert or update, `D.set(k, v)`. -/
def set (d : Dict K V) (k : K) (v : V) : Dict K V :=
  ⟨setList k v d.entries⟩

/-- Lookup, `D.get(k)`: the value or the absence sentinel. -/
def get (d : Dict K V) (k : K) : Option V :=
  getList k d.entries

/-- Deletion, `D.remove(k)`. -/
def remove (d : Dict K V) (k : K) : Dict K V :=
  ⟨removeList k d.entries⟩

/-- Clearing, `D.clear()`: empties the map and resets length to zero. -/
def clear (_d : Dict K V) : Dict K V :=
  ⟨[]⟩

end Dict

/-- Modelled from the spec: `List::set(i, x)` — bounds-checked element
write; out-of-range is a reported error (`none`), never a silent clamp. -/
def listSet {α : Type} : List α → Nat → α → Option (List α)
  | [], _, _ => none
  | _ :: rest, 0, x => some (x :: rest)
  | a :: rest, i + 1, x => (listSet rest i x).map (a :: ·)

/-- Modelled from the spec: `List::pop(i)` — bounds-checked removal of
the element at `i`; subsequent elements shift down by one. -/
def listPop {α : Type} : List α → Nat → Option (List α)
  | [], _ => none
  | _ :: rest, 0 => some rest
  | a :: rest, i + 1 => (listPop rest i).map (a :: ·)

/-- Modelled from the spec: `List::index(i)` — bounds-checked read. -/
def listIndex {α : Type} (L : List α) (i : Nat) : Option α :=
  L.get? i

/-- The global root stack, holding the addresses of the registered local
object references (most recent on top). -/
abbrev RootStack := List Nat

/-- Modelled from the spec: `Heap::PushRoot` pushes one root entry onto
the global root stack. -/
def PushRoot (st : RootStack) (r : Nat) : RootStack :=
  r :: st

/-- Modelled from the spec: `Heap::PopRoot` pops the top root entry. -/
def PopRoot (st : RootStack) : RootStack :=
  st.tail

/-- From gc_heap.h: the `StackRoots` constructor iterates over the given
initializer list of addresses and pushes each onto the root stack, in
list order. -/
def stackRootsCtor (roots : List Nat) (st : RootStack) : RootStack :=
  roots.foldl PushRoot st

/-- From gc_heap.h: the `StackRoots` destructor runs `n_ = roots.size()`
iterations of `PopRoot` (it runs on every exit path of the scope). -/
def stackRootsDtor : Nat → RootStack → RootStack
  | 0, st => st
  | n + 1, st => stackRootsDtor n (PopRoot st)

/-- The heap state visible to `Alloc`: the initialization flag tested by
its first assertion, and a bump pointer modelling the arena. -/
structure Heap where
  is_initialized_ : Bool
  next_addr : Nat

/-- Modelled from the spec: `Heap::Allocate` serves a raw storage address
from the current arena (collection on exhaustion is internal; a failed
retry aborts the process and is outside this state space). Addresses
handed out are nonzero (non-null). -/
def Heap.Allocate (h : Heap) (size : Nat) : Nat × Heap :=
  (h.next_addr + 1, { h with next_addr := h.next_addr + 1 + size })

/-- From gc_heap.h: `Alloc<T>(args...)` asserts `gHeap.is_initialized_`,
requests storage of `sizeof(T)`, asserts the storage non-null, and
placement-constructs a `T` from the arguments (`construct` models
`T(std::forward<Args>(args)...)`). A failed assertion is modelled as
`none`. -/
def Alloc {T : Type} (construct : T) (h : Heap) (size : Nat) :
    Option (Nat × T × Heap) :=
  if h.is_initialized_ then
    let p := h.Allocate size
    if p.1 ≠ 0 then some (p.1, construct, p.2) else none
  else none

/-- The shared empty string constant `kEmptyString`. -/
def kEmptyString : Str :=
  []

/-- From core_pyos.h: `pyos::GetUserName(uid)` — starts from
`kEmptyString`, and only if `getpwuid(uid)` yields a passwd entry
(modelled as the partial map `getpwuid` from uid to user name) does it
return a new string holding that entry's name. It always returns a
string, never a null reference. -/
def GetUserName (getpwuid : Int → Option Str) (uid : Int) : Str :=
  match getpwuid uid with
  | some pw_name => pw_name
  | none => kEmptyString

example : to_int " -123  ".toList 10 = some (-123) := by decide
example : to_int "0xff".toList 16 = some 255 := by decide
example : to_int "ff".toList 16 = some 255 := by decide
example : to_int "077".toList 8 = some 63 := by decide
example : to_int "".toList 10 = none := by decide
example : to_int "42a".toList 10 = none := by decide
example : to_int "345".toList 10 = some 345 := by decide
example : to_int "12345678901234567890".toList 10 = none := by decide

example : split ":".toList ":".toList = [[], []] := by
  simp [split, splitAux, startsWithL]
example : split "::".toList ":".toList = [[], [], []] := by
  simp [split, splitAux, startsWithL]
example : split "".toList ":".toList = [[]] := by
  simp [split, splitAux, startsWithL]
example : split "a:b".toList ":".toList = ["a".toList, "b".toList] := by
  simp [split, splitAux, startsWithL]
example : split_once "foo=bar".toList "=".toList
    = ("foo".toList, some "bar".toList) := by decide
example : split_once "foo=".toList "Z".toList = ("foo=".toList, none) := by
  decide
example : strip " 123 ".toList = "123".toList := by decide
example : rstrip " abc ".toList = " abc".toList := by decide

/-! ## Supporting lemmas -/

lemma rdropWhile_dropWhile_rdropWhile {α : Type} (p : α → Bool) (l : List α) :
    List.rdropWhile p (List.dropWhile p (List.rdropWhile p l))
      = List.dropWhile p (List.rdropWhile p l) := by
  rw [List.rdropWhile_eq_self_iff]
  intro hl
  have hy : List.rdropWhile p l ≠ [] := by
    intro h0
    rw [h0] at hl
    simp [List.dropWhile] at hl
  obtain ⟨t, ht⟩ := List.dropWhile_suffix (l := List.rdropWhile p l) p
  have hq : (List.rdropWhile p l).getLast?
      = some ((List.dropWhile p (List.rdropWhile p l)).getLast hl) := by
    conv_lhs => rw [← ht]
    rw [List.getLast?_append_of_ne_nil t hl]
    exact List.getLast?_eq_getLast _ hl
  have hq2 := List.getLast?_eq_getLast _ hy
  rw [hq] at hq2
  injection hq2 with heq
  rw [heq]
  exact List.rdropWhile_last_not p l hy

lemma rstrip_eq_rdropWhile (s : Str) :
    rstrip s = List.rdropWhile isSpaceChar s := rfl

lemma lstrip_eq_dropWhile (s : Str) :
    lstrip s = List.dropWhile isSpaceChar s := rfl

/-! ## Claim theorems -/

/-- Claim C1: integer parsing accepts optional leading whitespace, an optional
leading `-`, a non-empty run of digits valid in the base (`0x` accepted
for base 16), and optional trailing whitespace, returning the denoted
value; it fails on an empty digit run, on trailing non-whitespace
content, and on a magnitude overflowing the 32-bit int width — and every
returned value fits that width. -/
theorem to_int_spec :
    to_int " -123  ".toList 10 = some (-123)
    ∧ to_int "0xff".toList 16 = some 255
    ∧ to_int "ff".toList 16 = some 255
    ∧ to_int "077".toList 8 = some 63
    ∧ to_int "345".toList 10 = some 345
    ∧ to_int "".toList 10 = none
    ∧ to_int "42a".toList 10 = none
    ∧ to_int "12345678901234567890".toList 10 = none
    ∧ (∀ (s : Str) (b : Nat) (v : Int),
        to_int s b = some v → -(2 ^ 31) ≤ v ∧ v ≤ 2 ^ 31 - 1) := by
  refine ⟨by decide, by decide, by decide, by decide, by decide, by decide,
    by decide, by decide, ?_⟩
  intro s b v hv
  unfold to_int _str_to_int at hv
  simp only at hv
  split_ifs at hv <;> (try simp at hv) <;> omega

/-- Claim C1 witness: the range conjunct applied at a concrete parse. -/
theorem to_int_spec_witness :
    -(2 ^ 31) ≤ (345 : Int) ∧ (345 : Int) ≤ 2 ^ 31 - 1 :=
  to_int_spec.2.2.2.2.2.2.2.2 "345".toList 10 345 (by decide)

/-- Claim C7: `split_once` splits at the first occurrence of the separator;
when the separator is absent the second component is the absence marker
`none`, not the empty string. -/
theorem split_once_spec :
    split_once "foo=bar".toList "=".toList = ("foo".toList, some "bar".toList)
    ∧ split_once "foo=".toList "=".toList = ("foo".toList, some "".toList)
    ∧ split_once "foo=".toList "Z".toList = ("foo=".toList, none)
    ∧ split_once "".toList "Z".toList = ("".toList, none) := by
  refine ⟨by decide, by decide, by decide, by decide⟩

/-- Claim C8: `strip` is idempotent, `rstrip` never lengthens a string, and
stripping the empty string yields the empty string. -/
theorem strip_spec (s : Str) :
    strip (strip s) = strip s
    ∧ (rstrip s).length ≤ s.length
    ∧ strip [] = [] := by
  refine ⟨?_, ?_, by decide⟩
  · show lstrip (rstrip (lstrip (rstrip s))) = lstrip (rstrip s)
    rw [lstrip_eq_dropWhile, rstrip_eq_rdropWhile, lstrip_eq_dropWhile,
      rstrip_eq_rdropWhile, rdropWhile_dropWhile_rdropWhile,
      List.dropWhile_idempotent]
  · rw [rstrip_eq_rdropWhile]
    have hp := List.rdropWhile_prefix isSpaceChar s
    exact hp.length_le

lemma splitAux_length_eq (sep : Str) :
    ∀ (n : Nat) (s : Str), s.length ≤ n → ∀ (cur : List Char),
      (splitAux sep cur s).length = countOcc sep s + 1 := by
  intro n
  induction n with
  | zero =>
    intro s hs cur
    have hnil : s = [] := List.eq_nil_of_length_eq_zero (Nat.le_zero.mp hs)
    subst hnil
    simp [splitAux, countOcc]
  | succ n ih =>
    intro s hs cur
    cases s with
    | nil => simp [splitAux, countOcc]
    | cons c rest =>
      by_cases h : 0 < sep.length ∧ startsWithL (c :: rest) sep
      · rw [splitAux, countOcc]
        simp only [dif_pos h, List.length_cons]
        rw [ih ((c :: rest).drop sep.length) ?_ []]
        · simp only [List.length_drop, List.length_cons] at hs ⊢
          omega
      · rw [splitAux, countOcc]
        simp only [dif_neg h]
        exact ih rest (by simp only [List.length_cons] at hs; omega) (c :: cur)

/-- Claim C3: for a non-empty separator, `split` returns one more piece than
the number of non-overlapping occurrences of the separator; the empty
string splits into a single empty piece, and separators at the start,
end, or adjacent produce empty pieces (`":"` gives two empty strings,
`"::"` gives three). -/
theorem split_spec :
    (∀ (s sep : Str), sep ≠ [] →
      (split s sep).length = countOcc sep s + 1)
    ∧ (∀ sep : Str, split [] sep = [[]])
    ∧ split ":".toList ":".toList = [[], []]
    ∧ split "::".toList ":".toList = [[], [], []] := by
  refine ⟨fun s sep _hsep => splitAux_length_eq sep s.length s le_rfl [],
    fun sep => ?_, ?_, ?_⟩
  · simp [split, splitAux]
  · simp [split, splitAux, startsWithL]
  · simp [split, splitAux, startsWithL]

/-- Claim C3 witness: the length law applied to a concrete string with three
pieces and two separator occurrences. -/
theorem split_spec_witness :
    (split "abc:def:".toList ":".toList).length
      = countOcc ":".toList "abc:def:".toList + 1 :=
  split_spec.1 "abc:def:".toList ":".toList (by decide)

/-- Claim C2 (code bug): the intended byte-exact model finds a needle occurring
after an embedded zero byte and `replace` keeps the bytes after it,
while the shipped behavior — truncating at the first zero byte, which the
test file disables its assertions over with `cstring-BUG` comments —
misses that needle. The length itself does count the embedded zero
byte. -/
theorem str_contains_nul_bug :
    ("foo\x00a".toList).length = 5
    ∧ str_contains "foo\x00a".toList "a".toList = true
    ∧ str_contains_cstr "foo\x00a".toList "a".toList = false
    ∧ str_contains "foo\x00".toList "\x00".toList = true
    ∧ replace "abc\x00bcd".toList "ab".toList "--".toList
        = "--c\x00bcd".toList
    ∧ replace "abc\x00bcd".toList "bc".toList "--".toList
        = "a--\x00--d".toList := by
  refine ⟨by decide, by decide, by decide, by decide, ?_, ?_⟩
  · simp [replace, split, splitAux, startsWithL, List.intercalate]
  · simp [replace, split, splitAux, startsWithL, List.intercalate]

lemma getList_setList {K V : Type} [DecidableEq K] (k : K) (v : V) :
    ∀ l : List (K × V), getList k (setList k v l) = some v
  | [] => by simp [setList, getList]
  | (k0, v0) :: rest => by
    by_cases h : k0 = k
    · simp [setList, getList, h]
    · simp [setList, getList, h, getList_setList k v rest]

lemma keysMap_setList {K V : Type} [DecidableEq K] (k : K) (v : V) :
    ∀ l : List (K × V), (setList k v l).map Prod.fst
      = if k ∈ l.map Prod.fst then l.map Prod.fst
        else l.map Prod.fst ++ [k]
  | [] => by simp [setList]
  | (k0, v0) :: rest => by
    by_cases h : k0 = k
    · subst h
      simp [setList]
    · have hne : ¬k = k0 := fun hh => h hh.symm
      by_cases hm : k ∈ rest.map Prod.fst <;>
        simp [setList, h, hne, hm, keysMap_setList k v rest]

lemma keys_removeList_not_mem {K V : Type} [DecidableEq K] (k : K) :
    ∀ l : List (K × V), (l.map Prod.fst).Nodup →
      k ∉ (removeList k l).map Prod.fst
  | [] => by simp [removeList]
  | (k0, v0) :: rest => by
    intro hnd
    simp only [List.map_cons, List.nodup_cons] at hnd
    by_cases h : k0 = k
    · subst h
      simpa [removeList] using hnd.1
    · simp only [removeList, if_neg h, List.map_cons, List.mem_cons]
      push_neg
      exact ⟨fun hh => h hh.symm, keys_removeList_not_mem k rest hnd.2⟩

lemma length_removeList {K V : Type} [DecidableEq K] (k : K) :
    ∀ l : List (K × V), k ∈ l.map Prod.fst →
      (removeList k l).length = l.length - 1
  | [] => by simp
  | (k0, v0) :: rest => by
    intro hm
    by_cases h : k0 = k
    · simp [removeList, h]
    · have hm2 : k ∈ rest.map Prod.fst := by
        simp only [List.map_cons, List.mem_cons] at hm
        rcases hm with h1 | h2
        · exact absurd h1.symm h
        · exact h2
      have hpos : 0 < rest.length := by
        cases rest with
        | nil => simp at hm2
        | cons _ _ => simp
      simp only [removeList, if_neg h, List.length_cons,
        length_removeList k rest hm2]
      omega

/-- Claim C5: setting a key makes `get` return its value and puts the key in
`keys()`; the key order is first-insertion order — re-setting an existing
key leaves the order unchanged, a new key goes to the end; removing a
present key (keys are unique) removes it from `keys()` and decreases the
length by exactly one; `clear()` empties the map and resets the length
to zero. -/
theorem dict_spec {K V : Type} [DecidableEq K] (d : Dict K V) (k : K)
    (v : V) :
    (d.set k v).get k = some v
    ∧ k ∈ (d.set k v).keys
    ∧ (d.set k v).keys = (if k ∈ d.keys then d.keys else d.keys ++ [k])
    ∧ (d.keys.Nodup → k ∈ d.keys →
        k ∉ (d.remove k).keys ∧ (d.remove k).len = d.len - 1)
    ∧ d.clear.len = 0 ∧ d.clear.entries = [] := by
  refine ⟨getList_setList k v d.entries, ?_, keysMap_setList k v d.entries,
    fun hnd hmem => ⟨keys_removeList_not_mem k d.entries hnd,
      length_removeList k d.entries hmem⟩, rfl, rfl⟩
  show k ∈ (setList k v d.entries).map Prod.fst
  rw [keysMap_setList k v d.entries]
  by_cases hm : k ∈ d.entries.map Prod.fst <;> simp [hm]

/-- Claim C5 witness: the theorem applied to a concrete two-entry dictionary. -/
theorem dict_spec_witness :
    ((Dict.mk [(1, 10), (2, 20)] : Dict Nat Nat).set 1 99).get 1 = some 99
    ∧ 1 ∉ ((Dict.mk [(1, 10), (2, 20)] : Dict Nat Nat).remove 1).keys
    ∧ ((Dict.mk [(1, 10), (2, 20)] : Dict Nat Nat).remove 1).len
        = (Dict.mk [(1, 10), (2, 20)] : Dict Nat Nat).len - 1 :=
  ⟨(dict_spec (Dict.mk [(1, 10), (2, 20)]) 1 99).1,
    ((dict_spec (Dict.mk [(1, 10), (2, 20)]) 1 99).2.2.2.1
      (by decide) (by decide)).1,
    ((dict_spec (Dict.mk [(1, 10), (2, 20)]) 1 99).2.2.2.1
      (by decide) (by decide)).2⟩

lemma listSet_eq {α : Type} :
    ∀ (L : List α) (i : Nat) (x : α), i < L.length →
      listSet L i x = some (L.set i x)
  | [], _, _, h => absurd h (by simp)
  | _ :: _, 0, _, _ => rfl
  | a :: rest, i + 1, x, h => by
    have hr := listSet_eq rest i x (by simp at h; omega)
    simp [listSet, hr]

lemma get?_set_self {α : Type} :
    ∀ (L : List α) (i : Nat) (x : α), i < L.length →
      (L.set i x).get? i = some x
  | [], _, _, h => absurd h (by simp)
  | _ :: _, 0, _, _ => rfl
  | a :: rest, i + 1, x, h => by
    simpa using get?_set_self rest i x (by simp at h; omega)

lemma listPop_eq {α : Type} :
    ∀ (L : List α) (i : Nat), i < L.length →
      listPop L i = some (L.take i ++ L.drop (i + 1))
  | [], _, h => absurd h (by simp)
  | _ :: _, 0, _ => by simp [listPop]
  | a :: rest, i + 1, h => by
    have hr := listPop_eq rest i (by simp at h; omega)
    simp [listPop, hr]

/-- Claim C6: for an in-range index, `set` writes the element, is readable
back, and keeps the length; `pop` removes the element at the index,
shortens the list by exactly one, and keeps the remaining elements in
relative order (later elements shift down by one); concretely,
`[1,2,3].pop(0)` gives `[2,3]` and then `set(0, 42)` gives `[42,3]`. -/
theorem list_spec {α : Type} (L : List α) (i : Nat) (x : α)
    (h : i < L.length) :
    (listSet L i x = some (L.set i x)
      ∧ (L.set i x).length = L.length
      ∧ listIndex (L.set i x) i = some x)
    ∧ (listPop L i = some (L.take i ++ L.drop (i + 1))
      ∧ (L.take i ++ L.drop (i + 1)).length = L.length - 1)
    ∧ (listPop [1, 2, 3] 0 = some [2, 3]
      ∧ listSet [2, 3] 0 42 = some [42, 3]) := by
  refine ⟨⟨listSet_eq L i x h, by simp, get?_set_self L i x h⟩,
    ⟨listPop_eq L i h, ?_⟩, by decide, by decide⟩
  simp only [List.length_append, List.length_take, List.length_drop]
  omega

/-- Claim C6 witness: the pop law applied to the concrete three-element list. -/
theorem list_spec_witness :
    listPop ([1, 2, 3] : List Nat) 0
      = some (([1, 2, 3] : List Nat).take 0 ++ ([1, 2, 3] : List Nat).drop 1) :=
  (list_spec ([1, 2, 3] : List Nat) 0 42 (by decide)).2.1.1

lemma stackRootsCtor_eq (roots : List Nat) :
    ∀ st : RootStack, stackRootsCtor roots st = roots.reverse ++ st := by
  induction roots with
  | nil => intro st; rfl
  | cons r rs ih =>
    intro st
    show rs.foldl PushRoot (PushRoot st r) = (r :: rs).reverse ++ st
    rw [show rs.foldl PushRoot (PushRoot st r)
        = stackRootsCtor rs (PushRoot st r) from rfl, ih]
    simp [PushRoot]

lemma stackRootsDtor_append :
    ∀ (l : List Nat) (st : RootStack), stackRootsDtor l.length (l ++ st) = st
  | [], st => rfl
  | a :: l, st => by
    simpa [stackRootsDtor, PopRoot] using stackRootsDtor_append l st

/-- Claim C4: constructing a `StackRoots` from `n` addresses pushes exactly
those `n` entries onto the global root stack in list order; destroying it
pops exactly `n` entries in LIFO order, restoring the previous stack; and
after entering any properly nested sequence of scopes the root stack
length equals the baseline plus the total number of references registered
by the active scopes. -/
theorem stackRoots_spec :
    (∀ (roots : List Nat) (st : RootStack),
      stackRootsCtor roots st = roots.reverse ++ st
      ∧ (stackRootsCtor roots st).length = st.length + roots.length)
    ∧ (∀ (roots : List Nat) (st : RootStack),
      stackRootsDtor roots.length (stackRootsCtor roots st) = st)
    ∧ (∀ (scopes : List (List Nat)) (st0 : RootStack),
      (scopes.foldl (fun st roots => stackRootsCtor roots st) st0).length
        = st0.length + (scopes.map List.length).sum) := by
  refine ⟨fun roots st => ⟨stackRootsCtor_eq roots st, ?_⟩,
    fun roots st => ?_, ?_⟩
  · rw [stackRootsCtor_eq]
    simp only [List.length_append, List.length_reverse]
    omega
  · rw [stackRootsCtor_eq roots st, ← List.length_reverse roots]
    exact stackRootsDtor_append roots.reverse st
  · intro scopes
    induction scopes with
    | nil => intro st0; simp
    | cons sc scs ih =>
      intro st0
      rw [List.foldl_cons, ih]
      rw [stackRootsCtor_eq]
      simp only [List.length_append, List.length_reverse, List.map_cons,
        List.sum_cons]
      omega

/-- Claim C9: with the heap initialized, both assertions in `Alloc` hold and
`Alloc` returns a non-null reference to the constructed object; without
initialization no allocation takes place. -/
theorem Alloc_spec {T : Type} (c : T) (h : Heap) (size : Nat) :
    (h.is_initialized_ = true →
      ∃ addr h2, Alloc c h size = some (addr, c, h2) ∧ addr ≠ 0)
    ∧ (h.is_initialized_ = false → Alloc c h size = none) := by
  constructor
  · intro hinit
    refine ⟨h.next_addr + 1,
      { h with next_addr := h.next_addr + 1 + size }, ?_, by omega⟩
    simp [Alloc, hinit, Heap.Allocate]
  · intro hninit
    simp [Alloc, hninit]

/-- Claim C9 witness: a concrete initialized heap, on which `Alloc` succeeds
with a non-null address. -/
theorem Alloc_spec_witness :
    ∃ addr h2, Alloc (0 : Nat) ⟨true, 0⟩ 8 = some (addr, 0, h2) ∧ addr ≠ 0 :=
  (Alloc_spec 0 ⟨true, 0⟩ 8).1 rfl

/-- Claim C10: when the passwd database has no entry for the uid, `GetUserName`
returns the empty string (`kEmptyString`) rather than failing; when an
entry exists it returns exactly that entry's user name. -/
theorem GetUserName_spec (db : Int → Option Str) (uid : Int) :
    (db uid = none → GetUserName db uid = kEmptyString)
    ∧ (∀ pw_name, db uid = some pw_name → GetUserName db uid = pw_name) := by
  constructor
  · intro h0
    simp [GetUserName, h0]
  · intro pw_name h0
    simp [GetUserName, h0]

/-- Claim C10 witness: a uid absent from a concrete database yields the empty
string. -/
theorem GetUserName_spec_witness :
    GetUserName (fun _ => none) 0 = kEmptyString :=
  (GetUserName_spec (fun _ => none) 0).1 rfl
